import Mathlib

/-!
Formal model of the econometric diagnostic regression pipeline
(`src/statistical_analysis.py`, `src/main.py`).

The pipeline's own arithmetic (means, variances, quantiles, Pearson
numerator/denominators, the OLS/WLS estimators, the decision flags and the
conditional WLS branch) is embedded over `ℚ`.  Calls into external
statistical libraries (scipy's `shapiro`, statsmodels' `adfuller`,
`het_breuschpagan`, `het_white`, `durbin_watson`, `acorr_breusch_godfrey`,
and pandas' seeded `sample`) are abstracted as function parameters bundled
in `LibFuns`: the repository only consumes their returned tuples, so every
claim about the repository's code is a statement for all possible values of
those tuples.
-/

namespace EconPipeline

/-- Merged dataset handed to `StatisticalAnalyzer.__init__`: the two numeric
columns `DJI_Close` and `CO2_Level` of the pandas DataFrame (the `Date`
column is never used by the analyzer). -/
structure DataFrame where
  dji : List ℚ
  co2 : List ℚ
deriving DecidableEq

/-- Number of rows used by the regression code (both columns come from one
DataFrame, so in the source they always have equal length; `min` makes the
embedding total). -/
def nObs (df : DataFrame) : ℕ := min df.dji.length df.co2.length

/-- Value of column `DJI_Close` at row `i` (the regression response `y`). -/
def djiAt (df : DataFrame) (i : ℕ) : ℚ := df.dji.getD i 0

/-- Value of column `CO2_Level` at row `i` (the regression predictor). -/
def co2At (df : DataFrame) (i : ℕ) : ℚ := df.co2.getD i 0

/-- Design matrix built by `_prepare_regression_data` via
`sm.add_constant(self.data['CO2_Level'])`: each row is `(1, co2_i)`. -/
def designOf (df : DataFrame) : List (ℚ × ℚ) :=
  df.co2.map (fun c => (1, c))

/-- Finite sum `∑_{i<n} f i`, the index sums used by the estimators. -/
def sumR (n : ℕ) (f : ℕ → ℚ) : ℚ := ∑ i ∈ Finset.range n, f i

/-- Centered sum of squares of the predictor written in raw-moment form,
`Σ x_i² − (Σ x_i)²/n`; it is zero exactly on a constant (zero-variance)
predictor, the singular-design case of the two-column design matrix. -/
def sxx (n : ℕ) (x : ℕ → ℚ) : ℚ :=
  sumR n (fun i => x i ^ 2) - (sumR n x) ^ 2 / n

/-- Centered cross moment `Σ x_i y_i − (Σ x_i)(Σ y_i)/n`. -/
def sxy (n : ℕ) (x y : ℕ → ℚ) : ℚ :=
  sumR n (fun i => x i * y i) - sumR n x * sumR n y / n

/-- Parameters `(intercept, slope)` produced by `sm.OLS(y, X).fit()` on the
design `(1, x_i)`.  statsmodels solves by Moore–Penrose pseudoinverse, so
the fit is total: on a nonsingular design it is the closed-form
normal-equation solution; on a singular design (constant predictor `c`) the
pseudoinverse yields the minimum-norm least-squares solution
`(ȳ/(1+c²), c·ȳ/(1+c²))`.  No exception is raised in either case. -/
def olsParams (n : ℕ) (x y : ℕ → ℚ) : ℚ × ℚ :=
  if sxx n x = 0 then
    let c := x 0
    let ybar := sumR n y / n
    (ybar / (1 + c ^ 2), c * ybar / (1 + c ^ 2))
  else
    let b := sxy n x y / sxx n x
    (sumR n y / n - b * (sumR n x / n), b)

/-- Fitted OLS model: intercept (`params[0]`), slope (`params[1]`) and the
residual series `model.resid`, the fields of the statsmodels result object
that the repository reads. -/
structure OLSModel where
  const : ℚ
  beta : ℚ
  resid : List ℚ
deriving DecidableEq

/-- Model returned by `StatisticalAnalyzer.run_ols_regression`:
`sm.OLS(self.y, self.X).fit()` with `y = DJI_Close` and
`X = add_constant(CO2_Level)`. -/
def olsModelOf (df : DataFrame) : OLSModel :=
  let n := nObs df
  let p := olsParams n (co2At df) (djiAt df)
  { const := p.1
    beta := p.2
    resid := (List.range n).map (fun i => djiAt df i - (p.1 + p.2 * co2At df i)) }

/-- Weight attached to one OLS residual by `run_wls_regression`:
`weights = 1 / (ols_model.resid ** 2)` in numpy float arithmetic.  A zero
residual makes the division yield IEEE infinity (numpy emits a
divide-by-zero warning but no exception); `none` encodes that non-finite
weight, `some (1/r²)` the finite one. -/
def wlsWeight (r : ℚ) : Option ℚ :=
  if r = 0 then none else some (1 / r ^ 2)

/-- Closed-form solution of the weighted normal equations used by
`sm.WLS(y, X, weights).fit()` on the design `(1, x_i)` with finite
weights `w`. -/
def wlsParamsAt (n : ℕ) (x y w : ℕ → ℚ) : ℚ × ℚ :=
  let sw := sumR n w
  let swx := sumR n (fun i => w i * x i)
  let swy := sumR n (fun i => w i * y i)
  let swxx := sumR n (fun i => w i * x i ^ 2)
  let swxy := sumR n (fun i => w i * x i * y i)
  let b := (sw * swxy - swx * swy) / (sw * swxx - swx ^ 2)
  (swy / sw - b * (swx / sw), b)

/-- Result of `run_wls_regression`: the weight series and, when every
weight is finite, the weighted parameter estimates; when some OLS residual
was zero the infinite weight propagates as non-numeric output (`none`). -/
structure WLSModel where
  weights : List (Option ℚ)
  params : Option (ℚ × ℚ)
deriving DecidableEq

/-- Embedding of `StatisticalAnalyzer.run_wls_regression`: refit OLS,
form `weights = 1 / resid²`, then solve the weighted least squares
problem.  There is no guard on zero residuals in the source. -/
def runWLSRegression (df : DataFrame) : WLSModel :=
  let m := olsModelOf df
  let ws := m.resid.map wlsWeight
  { weights := ws
    params :=
      if ws.all (fun o => o.isSome) then
        some (wlsParamsAt (nObs df) (co2At df) (djiAt df)
          (fun i => (ws.getD i (some 0)).getD 0))
      else none }

/-- Errors named by the specification (`InsufficientDataError`,
`DegenerateInputError`, `SingularDesignMatrixError`).  Modelled from the
spec: no such exception classes exist anywhere in the repository; the type
is introduced so the spec's claimed failure modes are expressible, and the
embedding shows every code path returns `Except.ok`. -/
inductive AnalyzerError where
  | insufficientData
  | degenerateInput
  | singularDesignMatrix
deriving DecidableEq

/-- Embedding of `StatisticalAnalyzer.run_ols_regression` as the analyzer
calls it.  The source has no validation and statsmodels' pinv-based fit
raises nothing on these inputs, so the result is always `Except.ok`. -/
def runOLSRegression (df : DataFrame) : Except AnalyzerError OLSModel :=
  Except.ok (olsModelOf df)

/-- Quadruple `(lm_stat, lm_pvalue, f_stat, f_pvalue)` as returned by the
statsmodels diagnostic tests `het_breuschpagan`, `het_white` and
`acorr_breusch_godfrey`. -/
structure TestTuple where
  lm_stat : ℚ
  lm_pvalue : ℚ
  f_stat : ℚ
  f_pvalue : ℚ
deriving DecidableEq

/-- Pair `(W statistic, p-value)` returned by `scipy.stats.shapiro`. -/
structure ShapiroPair where
  stat : ℚ
  pvalue : ℚ
deriving DecidableEq

/-- Fields of the `adfuller` return tuple that the source reads:
positions 0 (statistic), 1 (p-value) and 4 (critical values). -/
structure ADFTuple where
  stat : ℚ
  pvalue : ℚ
  crit1 : ℚ
  crit5 : ℚ
  crit10 : ℚ
deriving DecidableEq

/-- External statistical library calls, abstracted as functions of exactly
the arguments the repository passes them.  The repository only consumes
the returned tuples, so theorems below quantify over all possible
implementations. -/
structure LibFuns where
  shapiroF : List ℚ → ShapiroPair
  samplerF : ℕ → List ℚ → ℕ → List ℚ
  adfF : List ℚ → ADFTuple
  bpF : List ℚ → List (ℚ × ℚ) → TestTuple
  whiteF : List ℚ → List (ℚ × ℚ) → TestTuple
  dwF : List ℚ → ℚ
  bgF : OLSModel → ℕ → TestTuple

/-- Model of `pandas.Series.sample(n, random_state=rs)`: when a seed is
given the draw is a pure function of `(seed, series, n)`; when `rs` is
`None` pandas consults the ambient process RNG state. -/
def pandasSample (lib : LibFuns) (ambient : ℕ) (rs : Option ℕ)
    (l : List ℚ) (n : ℕ) : List ℚ :=
  lib.samplerF (rs.getD ambient) l n

/-- Per-series entry of the dict returned by `test_normality`:
`{statistic, p_value, is_normal}` with `is_normal = p_value > 0.05`. -/
structure NormalityEntry where
  statistic : ℚ
  p_value : ℚ
  is_normal : Bool
deriving DecidableEq

/-- Dict returned by `test_normality`, keyed by series. -/
structure NormalityResult where
  dji : NormalityEntry
  co2 : NormalityEntry
deriving DecidableEq

/-- Embedding of `StatisticalAnalyzer.test_normality`: cap the sample at
`min sample_size N`, draw both samples with the fixed seed
`random_state=42` (so the ambient RNG state is never consulted), run
Shapiro–Wilk, and flag normality at the 0.05 level. -/
def testNormality (lib : LibFuns) (ambient : ℕ) (df : DataFrame)
    (sample_size : ℕ) : NormalityResult :=
  let n := min sample_size df.dji.length
  let sdji := lib.shapiroF (pandasSample lib ambient (some 42) df.dji n)
  let sco2 := lib.shapiroF (pandasSample lib ambient (some 42) df.co2 n)
  { dji := { statistic := sdji.stat, p_value := sdji.pvalue
             is_normal := decide (sdji.pvalue > (5 : ℚ) / 100) }
    co2 := { statistic := sco2.stat, p_value := sco2.pvalue
             is_normal := decide (sco2.pvalue > (5 : ℚ) / 100) } }

/-- Per-series entry of the dict returned by `test_stationarity`. -/
structure StationarityEntry where
  adf_statistic : ℚ
  p_value : ℚ
  crit1 : ℚ
  crit5 : ℚ
  crit10 : ℚ
  is_stationary : Bool
deriving DecidableEq

/-- Dict returned by `test_stationarity`. -/
structure StationarityResult where
  dji : StationarityEntry
  co2 : StationarityEntry
deriving DecidableEq

/-- Embedding of `StatisticalAnalyzer.test_stationarity`: ADF on each raw
series, stationary iff `p_value < 0.05`. -/
def testStationarity (lib : LibFuns) (df : DataFrame) : StationarityResult :=
  let a := lib.adfF df.dji
  let b := lib.adfF df.co2
  { dji := { adf_statistic := a.stat, p_value := a.pvalue, crit1 := a.crit1
             crit5 := a.crit5, crit10 := a.crit10
             is_stationary := decide (a.pvalue < (5 : ℚ) / 100) }
    co2 := { adf_statistic := b.stat, p_value := b.pvalue, crit1 := b.crit1
             crit5 := b.crit5, crit10 := b.crit10
             is_stationary := decide (b.pvalue < (5 : ℚ) / 100) } }

/-- Per-test entry of the dict returned by `test_heteroscedasticity`. -/
structure HetEntry where
  lm_statistic : ℚ
  lm_p_value : ℚ
  f_statistic : ℚ
  f_p_value : ℚ
  has_heteroscedasticity : Bool
deriving DecidableEq

/-- Dict returned by `test_heteroscedasticity`: the two sub-tests plus the
aggregate flag `bp_test[1] < 0.05 or white_test[1] < 0.05`. -/
structure HeteroResult where
  breusch_pagan : HetEntry
  white : HetEntry
  has_heteroscedasticity : Bool
deriving DecidableEq

/-- Embedding of `StatisticalAnalyzer.test_heteroscedasticity`: run OLS,
hand the residuals and the design matrix to `het_breuschpagan` and
`het_white`, and compare each LM p-value against the literal 0.05. -/
def testHeteroscedasticity (lib : LibFuns) (df : DataFrame) : HeteroResult :=
  let m := olsModelOf df
  let bp := lib.bpF m.resid (designOf df)
  let wh := lib.whiteF m.resid (designOf df)
  { breusch_pagan :=
      { lm_statistic := bp.lm_stat, lm_p_value := bp.lm_pvalue
        f_statistic := bp.f_stat, f_p_value := bp.f_pvalue
        has_heteroscedasticity := decide (bp.lm_pvalue < (5 : ℚ) / 100) }
    white :=
      { lm_statistic := wh.lm_stat, lm_p_value := wh.lm_pvalue
        f_statistic := wh.f_stat, f_p_value := wh.f_pvalue
        has_heteroscedasticity := decide (wh.lm_pvalue < (5 : ℚ) / 100) }
    has_heteroscedasticity :=
      decide (bp.lm_pvalue < (5 : ℚ) / 100)
        || decide (wh.lm_pvalue < (5 : ℚ) / 100) }

/-- Durbin–Watson entry of the dict returned by `test_autocorrelation`. -/
structure DWEntry where
  statistic : ℚ
  has_autocorrelation : Bool
deriving DecidableEq

/-- Breusch–Godfrey entry of the dict returned by `test_autocorrelation`. -/
structure BGEntry where
  lm_statistic : ℚ
  lm_p_value : ℚ
  f_statistic : ℚ
  f_p_value : ℚ
  has_autocorrelation : Bool
deriving DecidableEq

/-- Dict returned by `test_autocorrelation` with the aggregate flag
`dw_stat < 1.5 or dw_stat > 2.5 or bg_test[1] < 0.05`. -/
structure AutoResult where
  durbin_watson : DWEntry
  breusch_godfrey : BGEntry
  has_autocorrelation : Bool
deriving DecidableEq

/-- Embedding of `StatisticalAnalyzer.test_autocorrelation`: Durbin–Watson
on the OLS residuals with the hard-coded 1.5 / 2.5 thresholds, plus
Breusch–Godfrey with `nlags=10` at the 0.05 level. -/
def testAutocorrelation (lib : LibFuns) (df : DataFrame) : AutoResult :=
  let m := olsModelOf df
  let dw := lib.dwF m.resid
  let bg := lib.bgF m 10
  { durbin_watson :=
      { statistic := dw
        has_autocorrelation :=
          decide (dw < (3 : ℚ) / 2) || decide (dw > (5 : ℚ) / 2) }
    breusch_godfrey :=
      { lm_statistic := bg.lm_stat, lm_p_value := bg.lm_pvalue
        f_statistic := bg.f_stat, f_p_value := bg.f_pvalue
        has_autocorrelation := decide (bg.lm_pvalue < (5 : ℚ) / 100) }
    has_autocorrelation :=
      decide (dw < (3 : ℚ) / 2) || decide (dw > (5 : ℚ) / 2)
        || decide (bg.lm_pvalue < (5 : ℚ) / 100) }

/-- Column values in nondecreasing order; pandas' order statistics
(`min`, `max`, `median`, `quantile`) are functions of this sorted list. -/
def sortedOf (l : List ℚ) : List ℚ := l.insertionSort (· ≤ ·)

/-- Mean of a pandas Series, `l.sum / len(l)`. -/
def listMean (l : List ℚ) : ℚ := l.sum / l.length

/-- Sample variance of a pandas Series (`ddof=1`, denominator `N − 1`).
The source also reports `std`, which is `√var` and in general irrational;
it carries no information beyond `var` and is omitted from the record. -/
def listVar (l : List ℚ) : ℚ :=
  (l.map (fun v => (v - listMean l) ^ 2)).sum / ((l.length : ℚ) - 1)

/-- Minimum element of a Series, realized as the head of the sorted
values. -/
def listMin (l : List ℚ) : ℚ := (sortedOf l).getD 0 0

/-- Maximum element of a Series, realized as the last of the sorted
values. -/
def listMax (l : List ℚ) : ℚ := (sortedOf l).getD (l.length - 1) 0

/-- Linear interpolation between order statistics at fractional position
`h ∈ [0, n−1]` of the sorted list `s`: with `i = ⌊h⌋`,
`s[i] + (h − i)·(s[min(i+1, n−1)] − s[i])`.  This is pandas' default
`interpolation='linear'` rule. -/
def interpAt (s : List ℚ) (h : ℚ) : ℚ :=
  let i := (⌊h⌋).toNat
  let j := min (i + 1) (s.length - 1)
  s.getD i 0 + (h - (i : ℚ)) * (s.getD j 0 - s.getD i 0)

/-- Quantile of a Series with linear interpolation,
`pandas.Series.quantile(q)`; the median is the `q = 1/2` case. -/
def quantileLinear (l : List ℚ) (q : ℚ) : ℚ :=
  interpAt (sortedOf l) (q * ((l.length : ℚ) - 1))

/-- Per-series entry of the dict built by `compute_descriptive_stats`. -/
structure DescStats where
  mean : ℚ
  var : ℚ
  min : ℚ
  max : ℚ
  median : ℚ
  q1 : ℚ
  q3 : ℚ
deriving DecidableEq

/-- Descriptive statistics of one column. -/
def descOf (l : List ℚ) : DescStats :=
  { mean := listMean l
    var := listVar l
    min := listMin l
    max := listMax l
    median := quantileLinear l ((1 : ℚ) / 2)
    q1 := quantileLinear l ((1 : ℚ) / 4)
    q3 := quantileLinear l ((3 : ℚ) / 4) }

/-- Dict returned by `compute_descriptive_stats`, keyed `DJI` / `CO2`. -/
structure DescPair where
  dji : DescStats
  co2 : DescStats
deriving DecidableEq

/-- Embedding of `StatisticalAnalyzer.compute_descriptive_stats`. -/
def computeDescriptiveStats (df : DataFrame) : DescPair :=
  { dji := descOf df.dji, co2 := descOf df.co2 }

/-- Centered sum of squares `Σ (v − mean)²` of a Series; the Pearson
denominator of pandas `corr` vanishes exactly when this is zero for one of
the two series. -/
def centeredSS (l : List ℚ) : ℚ :=
  (l.map (fun v => (v - listMean l) ^ 2)).sum

/-- Centered cross sum `Σ (a_i − mean a)(b_i − mean b)`, the Pearson
numerator. -/
def centeredCross (l1 l2 : List ℚ) : ℚ :=
  (List.zipWith (fun a b => (a - listMean l1) * (b - listMean l2)) l1 l2).sum

/-- Value of `Series.corr` (Pearson).  The true value is
`centeredCross / √(centeredSS₁ · centeredSS₂)`, irrational in general, so
`val` keeps the defining triple; `nan` is the IEEE NaN that pandas yields
when a zero-variance series makes the denominator zero. -/
inductive PearsonResult where
  | nan
  | val (cross ss1 ss2 : ℚ)
deriving DecidableEq

/-- Pearson correlation of the two columns as pandas computes it. -/
def pearsonOf (df : DataFrame) : PearsonResult :=
  if centeredSS df.dji = 0 ∨ centeredSS df.co2 = 0 then PearsonResult.nan
  else PearsonResult.val (centeredCross df.dji df.co2)
    (centeredSS df.dji) (centeredSS df.co2)

/-- Embedding of `StatisticalAnalyzer.compute_correlation`:
`self.data['DJI_Close'].corr(self.data['CO2_Level'])`.  The source performs
no variance check and raises nothing — pandas silently returns NaN on a
zero-variance series — so every path is `Except.ok`. -/
def computeCorrelation (df : DataFrame) : Except AnalyzerError PearsonResult :=
  Except.ok (pearsonOf df)

/-- Dict returned by `StatisticalAnalyzer.get_analysis_summary`. -/
structure AnalysisSummary where
  descriptive : DescPair
  normality : NormalityResult
  stationarity : StationarityResult
  correlation : PearsonResult
  heteroscedasticity : HeteroResult
  autocorrelation : AutoResult
deriving DecidableEq

/-- Embedding of `StatisticalAnalyzer.get_analysis_summary`.  Neither
`__init__` nor any test validates the input length (or anything else), so
the whole battery runs unconditionally and the result is always
`Except.ok`; the `Except` wrapper only makes the spec's claimed rejections
expressible. -/
def getAnalysisSummary (lib : LibFuns) (ambient : ℕ) (df : DataFrame) :
    Except AnalyzerError AnalysisSummary :=
  Except.ok
    { descriptive := computeDescriptiveStats df
      normality := testNormality lib ambient df 5000
      stationarity := testStationarity lib df
      correlation := pearsonOf df
      heteroscedasticity := testHeteroscedasticity lib df
      autocorrelation := testAutocorrelation lib df }

/-- Statistics dict built by
`EconometricAnalysis._perform_statistical_analysis` (`self.stats`). -/
structure PipelineStats where
  descriptive : DescPair
  normality : NormalityResult
  stationarity : StationarityResult
  correlation : PearsonResult
  heteroscedasticity : HeteroResult
  autocorrelation : AutoResult
deriving DecidableEq

/-- Models dict built by `_perform_statistical_analysis` (`self.models`):
key `'ols'` is always written; key `'wls'` only inside the
`if has_heteroscedasticity:` branch. -/
structure PipelineModels where
  ols : OLSModel
  wls : Option WLSModel
deriving DecidableEq

/-- Aggregate state handed to the report and chart renderers. -/
structure PipelineOutput where
  stats : PipelineStats
  models : PipelineModels
deriving DecidableEq

/-- Embedding of `EconometricAnalysis._perform_statistical_analysis`
(`src/main.py` lines 93–131): run the battery, store OLS, then run WLS
exactly when the stored aggregate heteroscedasticity flag is true. -/
def performStatisticalAnalysis (lib : LibFuns) (ambient : ℕ)
    (df : DataFrame) : PipelineOutput :=
  let het := testHeteroscedasticity lib df
  { stats :=
      { descriptive := computeDescriptiveStats df
        normality := testNormality lib ambient df 5000
        stationarity := testStationarity lib df
        correlation := pearsonOf df
        heteroscedasticity := het
        autocorrelation := testAutocorrelation lib df }
    models :=
      { ols := olsModelOf df
        wls :=
          if het.has_heteroscedasticity then some (runWLSRegression df)
          else none } }

/-- Concrete instantiation of the external library interface, used to
evaluate the pipeline on fixtures (all external tests report zeros). -/
def constLib : LibFuns :=
  { shapiroF := fun _ => { stat := 0, pvalue := 0 }
    samplerF := fun _ l _ => l
    adfF := fun _ => { stat := 0, pvalue := 0, crit1 := 0, crit5 := 0, crit10 := 0 }
    bpF := fun _ _ => { lm_stat := 0, lm_pvalue := 0, f_stat := 0, f_pvalue := 0 }
    whiteF := fun _ _ => { lm_stat := 0, lm_pvalue := 0, f_stat := 0, f_pvalue := 0 }
    dwF := fun _ => 0
    bgF := fun _ _ => { lm_stat := 0, lm_pvalue := 0, f_stat := 0, f_pvalue := 0 } }

/-- Fixture for C2: the `DJI_Close` column is constant (zero variance). -/
def dfConstDJI : DataFrame := { dji := [5, 5, 5], co2 := [1, 2, 3] }

/-- Fixture for C3: five observations, below the spec's minimum of 20. -/
def dfFiveRows : DataFrame :=
  { dji := [1, 2, 3, 4, 5], co2 := [1, 1, 2, 2, 3] }

/-- Fixture for C4: the predictor `CO2_Level` is constant, so the design
matrix with intercept is singular. -/
def dfConstCO2 : DataFrame := { dji := [1, 2, 3], co2 := [2, 2, 2] }

/-- Fixture for C5: `DJI_Close` is an exact linear function of
`CO2_Level`, so every OLS residual is exactly zero. -/
def dfExactFit : DataFrame := { dji := [2, 4, 6], co2 := [1, 2, 3] }

/-- Fixture with a nonsingular design and nonzero residuals, used by the
C5 and C8 witnesses. -/
def dfGeneric : DataFrame := { dji := [1, 2, 4], co2 := [1, 2, 3] }

/-- Fixture for the C10 witness. -/
def dfDesc : DataFrame := { dji := [3, 1, 2, 5], co2 := [4, 4, 7] }

/-- C1: for every input dataset (and every behaviour of the external test
libraries), the pipeline's models record contains a WLS result exactly when
the aggregate flag returned by `test_heteroscedasticity` is true — in that
case it is the result of `run_wls_regression` — and contains no WLS result
when the flag is false; the stored heteroscedasticity stats are exactly
that test's output. -/
theorem wls_run_iff_heteroscedasticity_flag (lib : LibFuns) (ambient : ℕ)
    (df : DataFrame) :
    ((performStatisticalAnalysis lib ambient df).models.wls.isSome = true ↔
      (testHeteroscedasticity lib df).has_heteroscedasticity = true) ∧
    (performStatisticalAnalysis lib ambient df).models.wls =
      (if (testHeteroscedasticity lib df).has_heteroscedasticity then
        some (runWLSRegression df) else none) ∧
    (performStatisticalAnalysis lib ambient df).stats.heteroscedasticity =
      testHeteroscedasticity lib df := by
  refine ⟨?_, rfl, rfl⟩
  by_cases h : (testHeteroscedasticity lib df).has_heteroscedasticity <;>
    simp [performStatisticalAnalysis, h]

/-- C2 counterexample: on a dataset whose `DJI_Close` series is constant
(zero variance), `compute_correlation` does not fail — pandas silently
returns NaN, contradicting the claim that it raises a
`DegenerateInputError` and never returns NaN. -/
theorem corr_zero_variance_counterexample :
    centeredSS dfConstDJI.dji = 0 ∧
    computeCorrelation dfConstDJI = Except.ok PearsonResult.nan := by
  have h : centeredSS dfConstDJI.dji = 0 := by
    norm_num [centeredSS, listMean, dfConstDJI]
  exact ⟨h, by simp [computeCorrelation, pearsonOf, h]⟩

/-- C2 amended: whenever either input series has zero variance,
`compute_correlation` returns NaN (no exception is raised; the repository
defines no `DegenerateInputError`). -/
theorem corr_zero_variance_returns_nan (df : DataFrame)
    (h : centeredSS df.dji = 0 ∨ centeredSS df.co2 = 0) :
    computeCorrelation df = Except.ok PearsonResult.nan := by
  simp [computeCorrelation, pearsonOf, h]

/-- C2 witness: the amended statement holds on the constant-DJI fixture. -/
theorem corr_zero_variance_returns_nan_witness :
    computeCorrelation dfConstDJI = Except.ok PearsonResult.nan :=
  corr_zero_variance_returns_nan dfConstDJI
    (Or.inl (by norm_num [centeredSS, listMean, dfConstDJI]))

/-- C3 counterexample: a five-observation dataset is not rejected — the
analyzer performs no length validation, never raises an
`InsufficientDataError`, and the statistical battery (here: the
descriptive-statistics step) is computed on the short series. -/
theorem short_input_not_rejected_counterexample :
    dfFiveRows.dji.length = 5 ∧
    getAnalysisSummary constLib 0 dfFiveRows ≠
      Except.error AnalyzerError.insufficientData ∧
    (getAnalysisSummary constLib 0 dfFiveRows).toOption.map
      (fun s => s.descriptive.dji.mean) = some 3 := by
  refine ⟨rfl, ?_, ?_⟩
  · intro h
    simp [getAnalysisSummary] at h
  · norm_num [getAnalysisSummary, Except.toOption, computeDescriptiveStats,
      descOf, listMean, dfFiveRows]

/-- C3 amended: the analyzer has no minimum-length check at all:
`get_analysis_summary` computes the full battery on every input, of any
length, and always returns a summary (no `InsufficientDataError` exists in
the repository). -/
theorem analysis_summary_never_rejects (lib : LibFuns) (ambient : ℕ)
    (df : DataFrame) :
    ∃ s, getAnalysisSummary lib ambient df = Except.ok s :=
  ⟨_, rfl⟩

/-- C4 counterexample: on a dataset with constant predictor `CO2_Level`
(zero variance, singular design), `run_ols_regression` does not fail with
a `SingularDesignMatrixError` — it returns a fitted model. -/
theorem const_predictor_ols_counterexample :
    listVar dfConstCO2.co2 = 0 ∧
    runOLSRegression dfConstCO2 ≠
      Except.error AnalyzerError.singularDesignMatrix ∧
    runOLSRegression dfConstCO2 = Except.ok (olsModelOf dfConstCO2) := by
  refine ⟨by norm_num [listVar, listMean, dfConstCO2], ?_, rfl⟩
  intro h
  simp [runOLSRegression] at h

/-- C4 amended: on a constant predictor `X = c`, `run_ols_regression`
returns a fitted model rather than raising: statsmodels solves by
Moore–Penrose pseudoinverse, giving the minimum-norm solution
`(ȳ/(1+c²), c·ȳ/(1+c²))`. -/
theorem ols_const_predictor_returns_model (df : DataFrame) (c : ℚ)
    (hn : 0 < nObs df) (hc : ∀ i, i < nObs df → co2At df i = c) :
    runOLSRegression df = Except.ok (olsModelOf df) ∧
    (olsModelOf df).const =
      (sumR (nObs df) (djiAt df) / (nObs df)) / (1 + c ^ 2) ∧
    (olsModelOf df).beta =
      c * (sumR (nObs df) (djiAt df) / (nObs df)) / (1 + c ^ 2) := by
  have hx0 : co2At df 0 = c := hc 0 hn
  have hnq : ((nObs df : ℚ)) ≠ 0 := by
    exact_mod_cast Nat.pos_iff_ne_zero.mp hn
  have h2 : sumR (nObs df) (co2At df) = (nObs df : ℚ) * c := by
    unfold sumR
    have he : ∀ i ∈ Finset.range (nObs df), co2At df i = c :=
      fun i hi => hc i (Finset.mem_range.mp hi)
    rw [Finset.sum_congr rfl he]
    simp [Finset.sum_const, Finset.card_range, nsmul_eq_mul]
  have h1 : sumR (nObs df) (fun i => co2At df i ^ 2) = (nObs df : ℚ) * c ^ 2 := by
    unfold sumR
    have he : ∀ i ∈ Finset.range (nObs df), co2At df i ^ 2 = c ^ 2 :=
      fun i hi => by rw [hc i (Finset.mem_range.mp hi)]
    rw [Finset.sum_congr rfl he]
    simp [Finset.sum_const, Finset.card_range, nsmul_eq_mul]
  have hsxx : sxx (nObs df) (co2At df) = 0 := by
    unfold sxx
    rw [h1, h2]
    field_simp
    ring
  have hp : olsParams (nObs df) (co2At df) (djiAt df) =
      ((sumR (nObs df) (djiAt df) / (nObs df)) / (1 + c ^ 2),
        c * (sumR (nObs df) (djiAt df) / (nObs df)) / (1 + c ^ 2)) := by
    unfold olsParams
    rw [if_pos hsxx]
    simp only [hx0]
  refine ⟨rfl, ?_, ?_⟩ <;> simp [olsModelOf, hp]

/-- C4 witness: the amended statement evaluated on the constant-CO2
fixture (`c = 2`, `ȳ = 2`): the fit succeeds with intercept `2/5` and
slope `4/5`. -/
theorem ols_const_predictor_returns_model_witness :
    0 < nObs dfConstCO2 ∧
    runOLSRegression dfConstCO2 = Except.ok (olsModelOf dfConstCO2) ∧
    (olsModelOf dfConstCO2).const = (2 : ℚ) / 5 ∧
    (olsModelOf dfConstCO2).beta = (4 : ℚ) / 5 := by
  have h := ols_const_predictor_returns_model dfConstCO2 2 (by decide)
    (by
      intro i hi
      have hi3 : i < 3 := hi
      interval_cases i <;> rfl)
  refine ⟨by decide, h.1, ?_, ?_⟩
  · rw [h.2.1]
    norm_num [sumR, nObs, dfConstCO2, djiAt, Finset.sum_range_succ]
  · rw [h.2.2]
    norm_num [sumR, nObs, dfConstCO2, djiAt, Finset.sum_range_succ]

/-- C5 counterexample: on a dataset where `DJI_Close` is an exact linear
function of `CO2_Level`, every OLS residual is exactly zero and
`run_wls_regression` divides by zero: all weights are non-finite (IEEE
infinity, encoded `none`) and no finite parameters are produced — there is
no perturbation of residuals and no fallback to OLS. -/
theorem wls_zero_residual_counterexample :
    (olsModelOf dfExactFit).resid = [0, 0, 0] ∧
    (runWLSRegression dfExactFit).weights = [none, none, none] ∧
    (runWLSRegression dfExactFit).params = none := by
  have hp : olsParams 3 (co2At dfExactFit) (djiAt dfExactFit) = (0, 2) := by
    unfold olsParams
    rw [if_neg (by norm_num [sxx, sumR, Finset.sum_range_succ, co2At, dfExactFit])]
    norm_num [sxy, sxx, sumR, co2At, djiAt, dfExactFit, Finset.sum_range_succ]
  have hr : (olsModelOf dfExactFit).resid = [0, 0, 0] := by
    show (List.range 3).map (fun i => djiAt dfExactFit i -
      ((olsParams 3 (co2At dfExactFit) (djiAt dfExactFit)).1 +
        (olsParams 3 (co2At dfExactFit) (djiAt dfExactFit)).2 *
          co2At dfExactFit i)) = [0, 0, 0]
    rw [hp]
    norm_num [List.range_succ, djiAt, co2At, dfExactFit]
  have hws : (olsModelOf dfExactFit).resid.map wlsWeight = [none, none, none] := by
    rw [hr]
    simp [wlsWeight]
  refine ⟨hr, ?_, ?_⟩
  · show (olsModelOf dfExactFit).resid.map wlsWeight = [none, none, none]
    exact hws
  · simp only [runWLSRegression]
    rw [hws]
    simp

/-- C5 amended: the weight of observation `i` is `1 / residual_i²`
whenever `residual_i ≠ 0`; when `residual_i = 0` the code divides by zero
and the weight is non-finite (`none`) — there is no guard, perturbation or
OLS fallback. -/
theorem wls_weights_formula (df : DataFrame) (i : ℕ)
    (hi : i < (olsModelOf df).resid.length) :
    ((olsModelOf df).resid.getD i 0 ≠ 0 →
      (runWLSRegression df).weights.getD i none =
        some (1 / ((olsModelOf df).resid.getD i 0) ^ 2)) ∧
    ((olsModelOf df).resid.getD i 0 = 0 →
      (runWLSRegression df).weights.getD i none = none) := by
  have hw : (runWLSRegression df).weights = (olsModelOf df).resid.map wlsWeight := rfl
  have hmap : ((olsModelOf df).resid.map wlsWeight).getD i none =
      wlsWeight ((olsModelOf df).resid.getD i 0) := by
    rw [List.getD_eq_getElem _ _ (by simpa using hi), List.getElem_map,
      List.getD_eq_getElem _ _ hi]
  constructor <;> intro h
  · rw [hw, hmap]
    unfold wlsWeight
    rw [if_neg h]
  · rw [hw, hmap]
    unfold wlsWeight
    rw [if_pos h]

/-- C5 witness: on the generic fixture the first OLS residual is `1/6`
and its WLS weight is `1/(1/6)² = 36`. -/
theorem wls_weights_formula_witness :
    (olsModelOf dfGeneric).resid.getD 0 0 = (1 : ℚ) / 6 ∧
    (runWLSRegression dfGeneric).weights.getD 0 none = some 36 := by
  have hp : olsParams 3 (co2At dfGeneric) (djiAt dfGeneric) =
      (-(2 : ℚ) / 3, 3 / 2) := by
    unfold olsParams
    rw [if_neg (by norm_num [sxx, sumR, Finset.sum_range_succ, co2At, dfGeneric])]
    norm_num [sxy, sxx, sumR, co2At, djiAt, dfGeneric, Finset.sum_range_succ]
  have hr : (olsModelOf dfGeneric).resid = [1 / 6, -(1 / 3), 1 / 6] := by
    show (List.range 3).map (fun i => djiAt dfGeneric i -
      ((olsParams 3 (co2At dfGeneric) (djiAt dfGeneric)).1 +
        (olsParams 3 (co2At dfGeneric) (djiAt dfGeneric)).2 *
          co2At dfGeneric i)) = [1 / 6, -(1 / 3), 1 / 6]
    rw [hp]
    norm_num [List.range_succ, djiAt, co2At, dfGeneric]
  have hlen : 0 < (olsModelOf dfGeneric).resid.length := by
    rw [hr]; simp
  have h0 : (olsModelOf dfGeneric).resid.getD 0 0 = (1 : ℚ) / 6 := by
    rw [hr]; norm_num
  have h := (wls_weights_formula dfGeneric 0 hlen).1 (by rw [h0]; norm_num)
  refine ⟨h0, ?_⟩
  rw [h, h0]
  norm_num [Option.some.injEq]

/-- Helper: the sum of a list built by mapping over `List.range` is the
corresponding `Finset.range` sum. -/
theorem sum_list_range_map (n : ℕ) (f : ℕ → ℚ) :
    ((List.range n).map f).sum = ∑ i ∈ Finset.range n, f i := by
  induction n with
  | zero => simp
  | succ k ih =>
    rw [List.range_succ, List.map_append, List.sum_append,
      Finset.sum_range_succ, ih]
    simp

/-- Helper: indexing a list built by mapping over `List.range`. -/
theorem getD_range_map (n i : ℕ) (f : ℕ → ℚ) (hi : i < n) :
    ((List.range n).map f).getD i 0 = f i := by
  rw [List.getD_eq_getElem _ _ (by simpa using hi), List.getElem_map]
  simp

/-- Helper: sum of residuals against arbitrary intercept `A` and slope
`B`. -/
theorem sum_resid_eq (n : ℕ) (x y : ℕ → ℚ) (A B : ℚ) :
    (∑ i ∈ Finset.range n, (y i - (A + B * x i)))
      = sumR n y - n * A - B * sumR n x := by
  unfold sumR
  rw [Finset.sum_sub_distrib, Finset.sum_add_distrib, Finset.sum_const,
    Finset.card_range, ← Finset.mul_sum, nsmul_eq_mul]
  ring

/-- Helper: sum of residuals times the predictor against arbitrary
intercept `A` and slope `B`. -/
theorem sum_resid_x_eq (n : ℕ) (x y : ℕ → ℚ) (A B : ℚ) :
    (∑ i ∈ Finset.range n, (y i - (A + B * x i)) * x i)
      = sumR n (fun i => x i * y i) - A * sumR n x
        - B * sumR n (fun i => x i ^ 2) := by
  unfold sumR
  have hpt : ∀ i ∈ Finset.range n, (y i - (A + B * x i)) * x i
      = x i * y i - A * x i - B * x i ^ 2 := fun i _ => by ring
  rw [Finset.sum_congr rfl hpt, Finset.sum_sub_distrib, Finset.sum_sub_distrib,
    ← Finset.mul_sum, ← Finset.mul_sum]

/-- Helper: the OLS normal equations.  On a nonsingular design the fitted
parameters zero out both the residual sum and the residual–predictor cross
sum, in exact arithmetic. -/
theorem ols_normal_equations (n : ℕ) (x y : ℕ → ℚ) (hn : 0 < n)
    (hs : sxx n x ≠ 0) :
    (∑ i ∈ Finset.range n,
      (y i - ((olsParams n x y).1 + (olsParams n x y).2 * x i))) = 0 ∧
    (∑ i ∈ Finset.range n,
      (y i - ((olsParams n x y).1 + (olsParams n x y).2 * x i)) * x i) = 0 := by
  have hnq : ((n : ℚ)) ≠ 0 := by
    exact_mod_cast Nat.pos_iff_ne_zero.mp hn
  have ha : (olsParams n x y).1
      = sumR n y / n - sxy n x y / sxx n x * (sumR n x / n) := by
    unfold olsParams
    rw [if_neg hs]
  have hb : (olsParams n x y).2 = sxy n x y / sxx n x := by
    unfold olsParams
    rw [if_neg hs]
  have hbmul : (olsParams n x y).2
      * (sumR n (fun i => x i ^ 2) - (sumR n x) ^ 2 / n)
      = sumR n (fun i => x i * y i) - sumR n x * sumR n y / n := by
    rw [hb]
    exact div_mul_cancel₀ _ hs
  constructor
  · rw [sum_resid_eq, ha, hb]
    field_simp
    ring
  · rw [sum_resid_x_eq, ha, hb]
    have hb2 : sxy n x y / sxx n x
        * (sumR n (fun i => x i ^ 2) - (sumR n x) ^ 2 / n)
        = sumR n (fun i => x i * y i) - sumR n x * sumR n y / n := by
      rw [← hb]
      exact hbmul
    linear_combination -hb2

/-- C8: for every dataset with a nonsingular design (predictor not
constant), the OLS residuals sum to exactly zero and are exactly
orthogonal to the predictor, in the exact-arithmetic embedding of the
fit. -/
theorem ols_residuals_orthogonal (df : DataFrame) (hn : 0 < nObs df)
    (hs : sxx (nObs df) (co2At df) ≠ 0) :
    (olsModelOf df).resid.sum = 0 ∧
    (∑ i ∈ Finset.range (nObs df),
      (olsModelOf df).resid.getD i 0 * co2At df i) = 0 := by
  have hne := ols_normal_equations (nObs df) (co2At df) (djiAt df) hn hs
  constructor
  · have h1 : (olsModelOf df).resid.sum
        = ∑ i ∈ Finset.range (nObs df),
          (djiAt df i - ((olsParams (nObs df) (co2At df) (djiAt df)).1
            + (olsParams (nObs df) (co2At df) (djiAt df)).2 * co2At df i)) :=
      sum_list_range_map (nObs df) _
    rw [h1]
    exact hne.1
  · have h2 : ∀ i ∈ Finset.range (nObs df),
        (olsModelOf df).resid.getD i 0 * co2At df i
        = (djiAt df i - ((olsParams (nObs df) (co2At df) (djiAt df)).1
            + (olsParams (nObs df) (co2At df) (djiAt df)).2 * co2At df i))
          * co2At df i := by
      intro i hi
      have hg : (olsModelOf df).resid.getD i 0
          = djiAt df i - ((olsParams (nObs df) (co2At df) (djiAt df)).1
            + (olsParams (nObs df) (co2At df) (djiAt df)).2 * co2At df i) :=
        getD_range_map (nObs df) i _ (Finset.mem_range.mp hi)
      rw [hg]
    rw [Finset.sum_congr rfl h2]
    exact hne.2

/-- C8 witness: on the generic fixture (`Sxx = 2 ≠ 0`) the residual sum
and the residual–predictor cross sum both vanish. -/
theorem ols_residuals_orthogonal_witness :
    0 < nObs dfGeneric ∧
    (olsModelOf dfGeneric).resid.sum = 0 ∧
    (∑ i ∈ Finset.range (nObs dfGeneric),
      (olsModelOf dfGeneric).resid.getD i 0 * co2At dfGeneric i) = 0 := by
  have h := ols_residuals_orthogonal dfGeneric (by decide)
    (by norm_num [sxx, sumR, nObs, dfGeneric, co2At, Finset.sum_range_succ])
  exact ⟨by decide, h.1, h.2⟩

/-- C6: each heteroscedasticity sub-flag is true iff its LM p-value is
below 0.05, and the aggregate flag is true iff the Breusch–Pagan LM
p-value or the White LM p-value is below 0.05, for every input dataset and
every output of the external tests. -/
theorem heteroscedasticity_flag_rule (lib : LibFuns) (df : DataFrame) :
    ((testHeteroscedasticity lib df).breusch_pagan.has_heteroscedasticity = true ↔
      (lib.bpF (olsModelOf df).resid (designOf df)).lm_pvalue < (5 : ℚ) / 100) ∧
    ((testHeteroscedasticity lib df).white.has_heteroscedasticity = true ↔
      (lib.whiteF (olsModelOf df).resid (designOf df)).lm_pvalue < (5 : ℚ) / 100) ∧
    ((testHeteroscedasticity lib df).has_heteroscedasticity = true ↔
      ((lib.bpF (olsModelOf df).resid (designOf df)).lm_pvalue < (5 : ℚ) / 100 ∨
        (lib.whiteF (olsModelOf df).resid (designOf df)).lm_pvalue < (5 : ℚ) / 100)) := by
  refine ⟨?_, ?_, ?_⟩ <;>
    simp [testHeteroscedasticity, Bool.or_eq_true, decide_eq_true_eq]

/-- C7: the aggregate autocorrelation flag is true iff the Durbin–Watson
statistic is below 1.5 or above 2.5 or the Breusch–Godfrey LM p-value is
below 0.05; the Durbin–Watson sub-flag uses exactly the 1.5 / 2.5
thresholds, for every input dataset and every output of the external
tests. -/
theorem autocorrelation_flag_rule (lib : LibFuns) (df : DataFrame) :
    ((testAutocorrelation lib df).durbin_watson.has_autocorrelation = true ↔
      (lib.dwF (olsModelOf df).resid < (3 : ℚ) / 2 ∨
        lib.dwF (olsModelOf df).resid > (5 : ℚ) / 2)) ∧
    ((testAutocorrelation lib df).breusch_godfrey.has_autocorrelation = true ↔
      (lib.bgF (olsModelOf df) 10).lm_pvalue < (5 : ℚ) / 100) ∧
    ((testAutocorrelation lib df).has_autocorrelation = true ↔
      (lib.dwF (olsModelOf df).resid < (3 : ℚ) / 2 ∨
        lib.dwF (olsModelOf df).resid > (5 : ℚ) / 2 ∨
        (lib.bgF (olsModelOf df) 10).lm_pvalue < (5 : ℚ) / 100)) := by
  refine ⟨?_, ?_, ?_⟩ <;>
    simp [testAutocorrelation, Bool.or_eq_true, decide_eq_true_eq, or_assoc]

/-- Helper: the sorted copy of a list is sorted. -/
theorem sorted_sortedOf (l : List ℚ) : (sortedOf l).Sorted (· ≤ ·) :=
  List.sorted_insertionSort _ l

/-- Helper: sorting preserves length. -/
theorem length_sortedOf (l : List ℚ) : (sortedOf l).length = l.length :=
  List.length_insertionSort _ l

/-- Helper: the sorted copy is a permutation of the list. -/
theorem perm_sortedOf (l : List ℚ) : (sortedOf l).Perm l :=
  List.perm_insertionSort _ l

/-- Helper: entries of a sorted list are monotone in the index. -/
theorem sorted_getD_le (s : List ℚ) (hs : s.Sorted (· ≤ ·)) (i j : ℕ)
    (hij : i ≤ j) (hj : j < s.length) : s.getD i 0 ≤ s.getD j 0 := by
  have hi : i < s.length := lt_of_le_of_lt hij hj
  rw [List.getD_eq_get _ _ hi, List.getD_eq_get _ _ hj]
  exact hs.rel_get_of_le (Fin.mk_le_mk.mpr hij)

/-- Helper: cast of the truncated floor of a nonnegative rational. -/
theorem qfloor_cast {x : ℚ} (hx : 0 ≤ x) :
    (((⌊x⌋).toNat : ℕ) : ℚ) = ((⌊x⌋ : ℤ) : ℚ) := by
  have h0 : (0 : ℤ) ≤ ⌊x⌋ := Int.floor_nonneg.mpr hx
  exact_mod_cast Int.toNat_of_nonneg h0

/-- Helper: the truncated floor is below its argument. -/
theorem qfloor_le {x : ℚ} (hx : 0 ≤ x) : (((⌊x⌋).toNat : ℕ) : ℚ) ≤ x := by
  rw [qfloor_cast hx]
  exact Int.floor_le x

/-- Helper: the argument is below the truncated floor plus one. -/
theorem lt_qfloor_add_one {x : ℚ} (hx : 0 ≤ x) :
    x < (((⌊x⌋).toNat : ℕ) : ℚ) + 1 := by
  rw [qfloor_cast hx]
  exact Int.lt_floor_add_one x

/-- Helper: a rational bounded by a natural number has truncated floor
bounded by it. -/
theorem qfloor_toNat_le_of_le {x : ℚ} {m : ℕ} (hx : x ≤ (m : ℚ)) :
    (⌊x⌋).toNat ≤ m := by
  have h1 : ⌊x⌋ ≤ (m : ℤ) := by
    have := Int.floor_mono hx
    rwa [Int.floor_natCast] at this
  exact Int.toNat_le.mpr h1

/-- Helper: monotonicity of the truncated floor. -/
theorem qfloor_toNat_mono {x y : ℚ} (hxy : x ≤ y) :
    (⌊x⌋).toNat ≤ (⌊y⌋).toNat :=
  Int.toNat_le_toNat (Int.floor_mono hxy)

/-- Helper: the interpolation index stays in range. -/
theorem qidx_le (s : List ℚ) (hn : 0 < s.length) (h : ℚ)
    (hmax : h ≤ (s.length : ℚ) - 1) : (⌊h⌋).toNat ≤ s.length - 1 := by
  apply qfloor_toNat_le_of_le
  have h1 : 1 ≤ s.length := hn
  rw [Nat.cast_sub h1, Nat.cast_one]
  exact hmax

/-- Helper: the interpolated value at position `h` lies between the two
order statistics it interpolates. -/
theorem interpAt_bounds (s : List ℚ) (hs : s.Sorted (· ≤ ·))
    (hn : 0 < s.length) (h : ℚ) (h0 : 0 ≤ h)
    (hmax : h ≤ (s.length : ℚ) - 1) :
    s.getD ((⌊h⌋).toNat) 0 ≤ interpAt s h ∧
    interpAt s h ≤ s.getD (min ((⌊h⌋).toNat + 1) (s.length - 1)) 0 := by
  have hdef : interpAt s h = s.getD ((⌊h⌋).toNat) 0
      + (h - (((⌊h⌋).toNat : ℕ) : ℚ))
        * (s.getD (min ((⌊h⌋).toNat + 1) (s.length - 1)) 0
          - s.getD ((⌊h⌋).toNat) 0) := rfl
  have hi_le : (⌊h⌋).toNat ≤ s.length - 1 := qidx_le s hn h hmax
  have hj_lt : min ((⌊h⌋).toNat + 1) (s.length - 1) < s.length := by omega
  have hij : (⌊h⌋).toNat ≤ min ((⌊h⌋).toNat + 1) (s.length - 1) :=
    le_min (Nat.le_succ _) hi_le
  have hd : s.getD ((⌊h⌋).toNat) 0
      ≤ s.getD (min ((⌊h⌋).toNat + 1) (s.length - 1)) 0 :=
    sorted_getD_le s hs _ _ hij hj_lt
  have hf0 : 0 ≤ h - (((⌊h⌋).toNat : ℕ) : ℚ) := by
    have := qfloor_le h0
    linarith
  have hf1 : h - (((⌊h⌋).toNat : ℕ) : ℚ) ≤ 1 := by
    have := lt_qfloor_add_one h0
    linarith
  constructor
  · rw [hdef]
    have hm := mul_nonneg hf0 (sub_nonneg.mpr hd)
    linarith
  · rw [hdef]
    have hm := mul_le_mul_of_nonneg_right hf1 (sub_nonneg.mpr hd)
    linarith

/-- Helper: the linear interpolation over a sorted list is monotone in the
position. -/
theorem interpAt_mono (s : List ℚ) (hs : s.Sorted (· ≤ ·))
    (hn : 0 < s.length) (h₁ h₂ : ℚ) (h10 : 0 ≤ h₁) (h12 : h₁ ≤ h₂)
    (h2max : h₂ ≤ (s.length : ℚ) - 1) : interpAt s h₁ ≤ interpAt s h₂ := by
  have h20 : 0 ≤ h₂ := le_trans h10 h12
  have h1max : h₁ ≤ (s.length : ℚ) - 1 := le_trans h12 h2max
  have hii : (⌊h₁⌋).toNat ≤ (⌊h₂⌋).toNat := qfloor_toNat_mono h12
  rcases Nat.eq_or_lt_of_le hii with heq | hlt
  · have hdef₁ : interpAt s h₁ = s.getD ((⌊h₁⌋).toNat) 0
        + (h₁ - (((⌊h₁⌋).toNat : ℕ) : ℚ))
          * (s.getD (min ((⌊h₁⌋).toNat + 1) (s.length - 1)) 0
            - s.getD ((⌊h₁⌋).toNat) 0) := rfl
    have hdef₂ : interpAt s h₂ = s.getD ((⌊h₂⌋).toNat) 0
        + (h₂ - (((⌊h₂⌋).toNat : ℕ) : ℚ))
          * (s.getD (min ((⌊h₂⌋).toNat + 1) (s.length - 1)) 0
            - s.getD ((⌊h₂⌋).toNat) 0) := rfl
    rw [hdef₁, hdef₂, ← heq]
    have hi_le : (⌊h₁⌋).toNat ≤ s.length - 1 := qidx_le s hn h₁ h1max
    have hj_lt : min ((⌊h₁⌋).toNat + 1) (s.length - 1) < s.length := by omega
    have hij : (⌊h₁⌋).toNat ≤ min ((⌊h₁⌋).toNat + 1) (s.length - 1) :=
      le_min (Nat.le_succ _) hi_le
    have hd : s.getD ((⌊h₁⌋).toNat) 0
        ≤ s.getD (min ((⌊h₁⌋).toNat + 1) (s.length - 1)) 0 :=
      sorted_getD_le s hs _ _ hij hj_lt
    have hm := mul_le_mul_of_nonneg_right (sub_le_sub_right h12
      ((((⌊h₁⌋).toNat : ℕ) : ℚ))) (sub_nonneg.mpr hd)
    linarith
  · have hb₁ := (interpAt_bounds s hs hn h₁ h10 h1max).2
    have hb₂ := (interpAt_bounds s hs hn h₂ h20 h2max).1
    have h2le : (⌊h₂⌋).toNat ≤ s.length - 1 := qidx_le s hn h₂ h2max
    have hjmid : min ((⌊h₁⌋).toNat + 1) (s.length - 1) ≤ (⌊h₂⌋).toNat :=
      le_trans (min_le_left _ _) hlt
    have hmid : s.getD (min ((⌊h₁⌋).toNat + 1) (s.length - 1)) 0
        ≤ s.getD ((⌊h₂⌋).toNat) 0 :=
      sorted_getD_le s hs _ _ hjmid (by omega)
    linarith

/-- Helper: the quantile with linear interpolation is monotone in the
probability on `[0, 1]`. -/
theorem quantileLinear_mono (l : List ℚ) (hl : l ≠ []) (p q : ℚ)
    (hp : 0 ≤ p) (hpq : p ≤ q) (hq : q ≤ 1) :
    quantileLinear l p ≤ quantileLinear l q := by
  have hn : 0 < l.length := List.length_pos.mpr hl
  have hn1 : (1 : ℚ) ≤ (l.length : ℚ) := by exact_mod_cast hn
  have hsub : (0 : ℚ) ≤ (l.length : ℚ) - 1 := by linarith
  have hns : 0 < (sortedOf l).length := by
    rw [length_sortedOf]
    exact hn
  apply interpAt_mono (sortedOf l) (sorted_sortedOf l) hns
  · exact mul_nonneg hp hsub
  · exact mul_le_mul_of_nonneg_right hpq hsub
  · rw [length_sortedOf]
    calc q * ((l.length : ℚ) - 1) ≤ 1 * ((l.length : ℚ) - 1) :=
          mul_le_mul_of_nonneg_right hq hsub
      _ = (l.length : ℚ) - 1 := one_mul _

/-- Helper: every quantile is at least the minimum. -/
theorem listMin_le_quantile (l : List ℚ) (hl : l ≠ []) (q : ℚ)
    (h0 : 0 ≤ q) (h1 : q ≤ 1) : listMin l ≤ quantileLinear l q := by
  have hn : 0 < l.length := List.length_pos.mpr hl
  have hn1 : (1 : ℚ) ≤ (l.length : ℚ) := by exact_mod_cast hn
  have hsub : (0 : ℚ) ≤ (l.length : ℚ) - 1 := by linarith
  have hns : 0 < (sortedOf l).length := by
    rw [length_sortedOf]
    exact hn
  have hq0 : 0 ≤ q * ((l.length : ℚ) - 1) := mul_nonneg h0 hsub
  have hqmax : q * ((l.length : ℚ) - 1) ≤ ((sortedOf l).length : ℚ) - 1 := by
    rw [length_sortedOf]
    calc q * ((l.length : ℚ) - 1) ≤ 1 * ((l.length : ℚ) - 1) :=
          mul_le_mul_of_nonneg_right h1 hsub
      _ = (l.length : ℚ) - 1 := one_mul _
  have hb := (interpAt_bounds (sortedOf l) (sorted_sortedOf l) hns
    (q * ((l.length : ℚ) - 1)) hq0 hqmax).1
  refine le_trans ?_ hb
  have hi_le : (⌊q * ((l.length : ℚ) - 1)⌋).toNat ≤ (sortedOf l).length - 1 :=
    qidx_le (sortedOf l) hns _ hqmax
  exact sorted_getD_le (sortedOf l) (sorted_sortedOf l) 0 _ (Nat.zero_le _)
    (by omega)

/-- Helper: every quantile is at most the maximum. -/
theorem quantile_le_listMax (l : List ℚ) (hl : l ≠ []) (q : ℚ)
    (h0 : 0 ≤ q) (h1 : q ≤ 1) : quantileLinear l q ≤ listMax l := by
  have hn : 0 < l.length := List.length_pos.mpr hl
  have hn1 : (1 : ℚ) ≤ (l.length : ℚ) := by exact_mod_cast hn
  have hsub : (0 : ℚ) ≤ (l.length : ℚ) - 1 := by linarith
  have hns : 0 < (sortedOf l).length := by
    rw [length_sortedOf]
    exact hn
  have hq0 : 0 ≤ q * ((l.length : ℚ) - 1) := mul_nonneg h0 hsub
  have hqmax : q * ((l.length : ℚ) - 1) ≤ ((sortedOf l).length : ℚ) - 1 := by
    rw [length_sortedOf]
    calc q * ((l.length : ℚ) - 1) ≤ 1 * ((l.length : ℚ) - 1) :=
          mul_le_mul_of_nonneg_right h1 hsub
      _ = (l.length : ℚ) - 1 := one_mul _
  have hb := (interpAt_bounds (sortedOf l) (sorted_sortedOf l) hns
    (q * ((l.length : ℚ) - 1)) hq0 hqmax).2
  refine le_trans hb ?_
  have hlen : (sortedOf l).length = l.length := length_sortedOf l
  have hjle : min ((⌊q * ((l.length : ℚ) - 1)⌋).toNat + 1)
      ((sortedOf l).length - 1) ≤ (sortedOf l).length - 1 := min_le_right _ _
  have := sorted_getD_le (sortedOf l) (sorted_sortedOf l)
    (min ((⌊q * ((l.length : ℚ) - 1)⌋).toNat + 1) ((sortedOf l).length - 1))
    ((sortedOf l).length - 1) hjle (by omega)
  have hmax_eq : listMax l = (sortedOf l).getD ((sortedOf l).length - 1) 0 := by
    unfold listMax
    rw [hlen]
  rw [hmax_eq]
  exact this

/-- Helper: the mean lies between the minimum and the maximum. -/
theorem listMean_bounds (l : List ℚ) (hl : l ≠ []) :
    listMin l ≤ listMean l ∧ listMean l ≤ listMax l := by
  have hn : 0 < l.length := List.length_pos.mpr hl
  have hnq : (0 : ℚ) < (l.length : ℚ) := by exact_mod_cast hn
  have hperm : (sortedOf l).Perm l := perm_sortedOf l
  have hsum : l.sum = (sortedOf l).sum := (hperm.sum_eq).symm
  have hlen : (sortedOf l).length = l.length := length_sortedOf l
  have hns : 0 < (sortedOf l).length := by omega
  have hminmem : ∀ x ∈ sortedOf l, listMin l ≤ x := by
    intro x hx
    obtain ⟨k, hk⟩ := List.mem_iff_get.mp hx
    rw [← hk, ← List.getD_eq_get _ 0 k.isLt]
    exact sorted_getD_le (sortedOf l) (sorted_sortedOf l) 0 k
      (Nat.zero_le _) k.isLt
  have hmaxmem : ∀ x ∈ sortedOf l, x ≤ listMax l := by
    intro x hx
    obtain ⟨k, hk⟩ := List.mem_iff_get.mp hx
    rw [← hk, ← List.getD_eq_get _ 0 k.isLt]
    unfold listMax
    rw [← hlen]
    exact sorted_getD_le (sortedOf l) (sorted_sortedOf l) k
      ((sortedOf l).length - 1) (by omega) (by omega)
  constructor
  · have h := List.card_nsmul_le_sum (sortedOf l) (listMin l) hminmem
    rw [nsmul_eq_mul, hlen] at h
    unfold listMean
    rw [hsum, le_div_iff hnq]
    linarith
  · have h := List.sum_le_card_nsmul (sortedOf l) (listMax l) hmaxmem
    rw [nsmul_eq_mul, hlen] at h
    unfold listMean
    rw [hsum, div_le_iff hnq]
    linarith

/-- Helper: the full ordering invariant of one descriptive-statistics
record. -/
theorem descOf_ordered (l : List ℚ) (hl : l ≠ []) :
    (descOf l).min ≤ (descOf l).q1 ∧ (descOf l).q1 ≤ (descOf l).median ∧
    (descOf l).median ≤ (descOf l).q3 ∧ (descOf l).q3 ≤ (descOf l).max ∧
    (descOf l).min ≤ (descOf l).mean ∧ (descOf l).mean ≤ (descOf l).max := by
  refine ⟨?_, ?_, ?_, ?_, ?_, ?_⟩
  · exact listMin_le_quantile l hl ((1 : ℚ) / 4) (by norm_num) (by norm_num)
  · exact quantileLinear_mono l hl ((1 : ℚ) / 4) ((1 : ℚ) / 2)
      (by norm_num) (by norm_num) (by norm_num)
  · exact quantileLinear_mono l hl ((1 : ℚ) / 2) ((3 : ℚ) / 4)
      (by norm_num) (by norm_num) (by norm_num)
  · exact quantile_le_listMax l hl ((3 : ℚ) / 4) (by norm_num) (by norm_num)
  · exact (listMean_bounds l hl).1
  · exact (listMean_bounds l hl).2

/-- C10: for every dataset with nonempty columns, each
descriptive-statistics record satisfies
`min ≤ q1 ≤ median ≤ q3 ≤ max` and the mean lies in `[min, max]`. -/
theorem descriptive_stats_ordered (df : DataFrame) (h1 : df.dji ≠ [])
    (h2 : df.co2 ≠ []) :
    ((computeDescriptiveStats df).dji.min ≤ (computeDescriptiveStats df).dji.q1 ∧
     (computeDescriptiveStats df).dji.q1 ≤ (computeDescriptiveStats df).dji.median ∧
     (computeDescriptiveStats df).dji.median ≤ (computeDescriptiveStats df).dji.q3 ∧
     (computeDescriptiveStats df).dji.q3 ≤ (computeDescriptiveStats df).dji.max ∧
     (computeDescriptiveStats df).dji.min ≤ (computeDescriptiveStats df).dji.mean ∧
     (computeDescriptiveStats df).dji.mean ≤ (computeDescriptiveStats df).dji.max) ∧
    ((computeDescriptiveStats df).co2.min ≤ (computeDescriptiveStats df).co2.q1 ∧
     (computeDescriptiveStats df).co2.q1 ≤ (computeDescriptiveStats df).co2.median ∧
     (computeDescriptiveStats df).co2.median ≤ (computeDescriptiveStats df).co2.q3 ∧
     (computeDescriptiveStats df).co2.q3 ≤ (computeDescriptiveStats df).co2.max ∧
     (computeDescriptiveStats df).co2.min ≤ (computeDescriptiveStats df).co2.mean ∧
     (computeDescriptiveStats df).co2.mean ≤ (computeDescriptiveStats df).co2.max) :=
  ⟨descOf_ordered df.dji h1, descOf_ordered df.co2 h2⟩

/-- C10 witness: the ordering invariant instantiated on a concrete
dataset with nonempty columns. -/
theorem descriptive_stats_ordered_witness :
    dfDesc.dji ≠ [] ∧ dfDesc.co2 ≠ [] ∧
    ((computeDescriptiveStats dfDesc).dji.min ≤ (computeDescriptiveStats dfDesc).dji.q1 ∧
     (computeDescriptiveStats dfDesc).dji.q1 ≤ (computeDescriptiveStats dfDesc).dji.median ∧
     (computeDescriptiveStats dfDesc).dji.median ≤ (computeDescriptiveStats dfDesc).dji.q3 ∧
     (computeDescriptiveStats dfDesc).dji.q3 ≤ (computeDescriptiveStats dfDesc).dji.max ∧
     (computeDescriptiveStats dfDesc).dji.min ≤ (computeDescriptiveStats dfDesc).dji.mean ∧
     (computeDescriptiveStats dfDesc).dji.mean ≤ (computeDescriptiveStats dfDesc).dji.max) ∧
    ((computeDescriptiveStats dfDesc).co2.min ≤ (computeDescriptiveStats dfDesc).co2.q1 ∧
     (computeDescriptiveStats dfDesc).co2.q1 ≤ (computeDescriptiveStats dfDesc).co2.median ∧
     (computeDescriptiveStats dfDesc).co2.median ≤ (computeDescriptiveStats dfDesc).co2.q3 ∧
     (computeDescriptiveStats dfDesc).co2.q3 ≤ (computeDescriptiveStats dfDesc).co2.max ∧
     (computeDescriptiveStats dfDesc).co2.min ≤ (computeDescriptiveStats dfDesc).co2.mean ∧
     (computeDescriptiveStats dfDesc).co2.mean ≤ (computeDescriptiveStats dfDesc).co2.max) := by
  have h := descriptive_stats_ordered dfDesc (by decide) (by decide)
  exact ⟨by decide, by decide, h.1, h.2⟩

/-- C9: `test_normality` is deterministic across runs: the sub-sampling is
drawn with the fixed seed `random_state=42`, so the ambient process RNG
state is never consulted and two runs on identical input with the same cap
return identical Shapiro–Wilk statistics, p-values and flags. -/
theorem normality_deterministic (lib : LibFuns) (ambient1 ambient2 : ℕ)
    (df : DataFrame) (cap : ℕ) :
    testNormality lib ambient1 df cap = testNormality lib ambient2 df cap :=
  rfl

end EconPipeline
